import Mathlib

/-!
Verification of the room-scoped operation log and session coordination of a
real-time collaborative drawing server.

The embedding mirrors `src/server/drawing-state.js`, `src/server/rooms.js`
and the socket handlers of the server entry file.  JavaScript `Map`s are
modelled as insertion-ordered association lists with unique keys; mutation
is modelled by explicit state passing.  Drawing payloads are opaque records.
-/

/-- Insertion-ordered association-list update, matching `Map.prototype.set`:
overwrite in place when the key is present, append otherwise. -/
def mapSet {α : Type} : List (String × α) → String → α → List (String × α)
  | [], k, v => [(k, v)]
  | (k', v') :: rest, k, v =>
    if k' = k then (k, v) :: rest else (k', v') :: mapSet rest k v

/-- Association-list lookup, matching `Map.prototype.get`. -/
def mapGet {α : Type} : List (String × α) → String → Option α
  | [], _ => none
  | (k', v) :: rest, k => if k' = k then some v else mapGet rest k

/-- Association-list removal, matching `Map.prototype.delete` (a JS `Map`
holds each key at most once, so removing every occurrence is equivalent). -/
def mapDelete {α : Type} (m : List (String × α)) (k : String) :
    List (String × α) :=
  m.filter (fun p => p.1 != k)

/-- The caller-supplied part of a drawing operation, as built in the `draw`
handler: `{type, data, userId, username}`.  `username` is `userInfo?.username`,
hence optional. -/
structure OpPayload where
  opType : String
  data : String
  userId : String
  username : Option String
  deriving Repr, DecidableEq

/-- A finalized operation record: the payload plus the fields stamped by
`DrawingState.addOperation` (`id` and `timestamp`). -/
structure Operation where
  payload : OpPayload
  id : Nat
  timestamp : Nat
  deriving Repr, DecidableEq

/-- Identity assigned to a user at join time (`{userId, username, color}`). -/
structure UserInfo where
  userId : String
  username : String
  color : String
  deriving Repr, DecidableEq

/-- The record stored by `DrawingState.addUser`:
`{...userInfo, userId, joinedAt}`. -/
structure StoredUser where
  info : UserInfo
  joinedAt : Nat
  deriving Repr, DecidableEq

/-- Per-room state, mirroring the `DrawingState` class constructor:
`roomId`, `operations = []`, `currentOperationId = 0`, `users = new Map()`. -/
structure DrawingState where
  roomId : String
  operations : List Operation
  currentOperationId : Nat
  users : List (String × StoredUser)
  deriving Repr, DecidableEq

/-- Constructor state: `new DrawingState(roomId)`. -/
def DrawingState.mk0 (roomId : String) : DrawingState :=
  ⟨roomId, [], 0, []⟩

/-- Method `addOperation`: stamp `id = currentOperationId++` and `timestamp`, push
onto the log, return the finalized record together with the new state. -/
def DrawingState.addOperation (s : DrawingState) (p : OpPayload) (now : Nat) :
    Operation × DrawingState :=
  let op : Operation := ⟨p, s.currentOperationId, now⟩
  (op, { s with
          operations := s.operations ++ [op],
          currentOperationId := s.currentOperationId + 1 })

/-- Method `undo`: return `null` on an empty log, otherwise pop and return the last
element.  The id counter is not touched. -/
def DrawingState.undo (s : DrawingState) : Option Operation × DrawingState :=
  match s.operations.getLast? with
  | none => (none, s)
  | some op => (some op, { s with operations := s.operations.dropLast })

/-- Method `clear`: empty the log and reset the id counter to 0. -/
def DrawingState.clear (s : DrawingState) : DrawingState :=
  { s with operations := [], currentOperationId := 0 }

/-- Method `addUser`: store `{...userInfo, userId, joinedAt}` under `userId`. -/
def DrawingState.addUser (s : DrawingState) (uid : String) (info : UserInfo)
    (now : Nat) : DrawingState :=
  { s with users := mapSet s.users uid ⟨{ info with userId := uid }, now⟩ }

/-- Method `removeUser`. -/
def DrawingState.removeUser (s : DrawingState) (uid : String) : DrawingState :=
  { s with users := mapDelete s.users uid }

/-- One log-mutating call against a room. -/
inductive LogAction where
  | append (p : OpPayload) (now : Nat)
  | undoLast
  | clearAll
  deriving Repr, DecidableEq

/-- Apply one action to a room state, discarding the returned value. -/
def applyAction (s : DrawingState) : LogAction → DrawingState
  | .append p now => (s.addOperation p now).2
  | .undoLast => (s.undo).2
  | .clearAll => s.clear

/-- Run a sequence of log-mutating calls. -/
def runActions (s : DrawingState) (acts : List LogAction) : DrawingState :=
  acts.foldl applyAction s

/-- The ids currently in the log, in log order. -/
def logIds (s : DrawingState) : List Nat :=
  s.operations.map Operation.id

/-- The spec's gap-free invariant: ids from the last clear / room creation
are exactly `0, 1, ..., k-1` where `k` is the log length. -/
def gapFree (s : DrawingState) : Prop :=
  logIds s = List.range s.operations.length

instance (s : DrawingState) : Decidable (gapFree s) := by
  unfold gapFree; infer_instance

/-- Strict ascending order of the log by id. -/
def idSorted (s : DrawingState) : Prop :=
  s.operations.Pairwise (fun a b => a.id < b.id)

instance (s : DrawingState) : Decidable (idSorted s) := by
  unfold idSorted; infer_instance

/-- Every id in the log is strictly below the id counter. -/
def idBound (s : DrawingState) : Prop :=
  ∀ op ∈ s.operations, op.id < s.currentOperationId

instance (s : DrawingState) : Decidable (idBound s) := by
  unfold idBound; infer_instance

/-- A fixed sample payload used for concrete histories. -/
def p0 : OpPayload :=
  ⟨"draw", "d", "u", some "n"⟩

/-- History: append, append, undo, append.  The undo pops id 1 but leaves the
counter at 2, so the final append receives id 2. -/
def gapHistory : List LogAction :=
  [.append p0 0, .append p0 1, .undoLast, .append p0 2]

/-- The fixed 12-entry user color palette (`USER_COLORS`). -/
def USER_COLORS : List String :=
  ["#FF6B6B", "#4ECDC4", "#45B7D1", "#FFA07A",
   "#98D8C8", "#F7DC6F", "#BB8FCE", "#85C1E2",
   "#F8B739", "#52B788", "#E63946", "#A8DADC"]

/-- Global server state: the `RoomManager`'s rooms map together with the
module-level `colorIndex` counter. -/
structure ServerState where
  rooms : List (String × DrawingState)
  colorIndex : Nat
  deriving Repr, DecidableEq

/-- Method `RoomManager.getRoom`: non-creating lookup. -/
def getRoom (st : ServerState) (roomId : String) : Option DrawingState :=
  mapGet st.rooms roomId

/-- Replace a room's state in the store (a JS method call mutates the room
object held in the map; here the updated object is written back). -/
def setRoom (st : ServerState) (roomId : String) (room : DrawingState) :
    ServerState :=
  { st with rooms := mapSet st.rooms roomId room }

/-- Method `RoomManager.getOrCreateRoom`: create a fresh `DrawingState` under the
key when absent, then return the room under the key. -/
def getOrCreateRoom (st : ServerState) (roomId : String) :
    ServerState × DrawingState :=
  match mapGet st.rooms roomId with
  | some room => (st, room)
  | none => ({ st with rooms := mapSet st.rooms roomId (DrawingState.mk0 roomId) },
             DrawingState.mk0 roomId)

/-- Method `RoomManager.removeRoom`: delete the entry only when the room exists and
its users map is empty; report whether a deletion happened. -/
def removeRoom (st : ServerState) (roomId : String) : ServerState × Bool :=
  match mapGet st.rooms roomId with
  | some room =>
    if room.users.length = 0 then
      ({ st with rooms := mapDelete st.rooms roomId }, true)
    else (st, false)
  | none => (st, false)

/-- Per-connection state held by the connection handler closure:
`currentRoom` and `userInfo`, both initially `null`. -/
structure ConnState where
  socketId : String
  currentRoom : Option String
  userInfo : Option UserInfo
  deriving Repr, DecidableEq

/-- An event emitted through the socket layer; only the routing mode, target
room and event name are modelled. -/
inductive Emit where
  | toSender (event : String)
  | toRoomExceptSender (room : String) (event : String)
  | toRoomAll (room : String) (event : String)
  deriving Repr, DecidableEq

/-- The leave-previous-room phase at the top of the `join-room` handler: when
the connection is bound and the old room still exists, remove the user from
it and notify that room. -/
def leavePrevRoom (st : ServerState) (c : ConnState) : ServerState × List Emit :=
  match c.currentRoom with
  | none => (st, [])
  | some prev =>
    match getRoom st prev with
    | none => (st, [])
    | some oldRoom =>
      (setRoom st prev (oldRoom.removeUser c.socketId),
       [Emit.toRoomExceptSender prev "user-left"])

/-- The `join-room` handler: leave the previous room, get-or-create the new
room, assign the next palette color (incrementing the global counter), store
the user, rebind the connection, and emit init-state / user-joined /
users-update. -/
def handleJoin (st : ServerState) (c : ConnState) (roomId username : String)
    (now : Nat) : ServerState × ConnState × List Emit :=
  let l := leavePrevRoom st c
  let g := getOrCreateRoom l.1 roomId
  let userColor := USER_COLORS.getD (g.1.colorIndex % USER_COLORS.length) ""
  let st2 := { g.1 with colorIndex := g.1.colorIndex + 1 }
  let info : UserInfo := ⟨c.socketId, username, userColor⟩
  let room' := (g.2).addUser c.socketId info now
  let c' := { c with currentRoom := some roomId, userInfo := some info }
  (setRoom st2 roomId room', c',
   l.2 ++ [Emit.toSender "init-state",
           Emit.toRoomExceptSender roomId "user-joined",
           Emit.toRoomAll roomId "users-update"])

/-- The `draw` handler: no-op when unbound or the room is gone; otherwise
append the operation and broadcast it to the room excluding the sender. -/
def handleDraw (st : ServerState) (c : ConnState) (data : String) (now : Nat) :
    ServerState × List Emit :=
  match c.currentRoom with
  | none => (st, [])
  | some rid =>
    match getRoom st rid with
    | none => (st, [])
    | some room =>
      let r := room.addOperation
        ⟨"draw", data, c.socketId, (c.userInfo).map UserInfo.username⟩ now
      (setRoom st rid r.2, [Emit.toRoomExceptSender rid "draw"])

/-- The `cursor-move` handler: no-op when unbound; otherwise broadcast the
position to the room excluding the sender, touching no state. -/
def handleCursorMove (st : ServerState) (c : ConnState) :
    ServerState × List Emit :=
  match c.currentRoom with
  | none => (st, [])
  | some rid => (st, [Emit.toRoomExceptSender rid "cursor-move"])

/-- The `undo` handler: no-op when unbound or the room is gone; otherwise pop
the room's last operation and, when one was removed, broadcast `undo` to the
whole room including the sender. -/
def handleUndo (st : ServerState) (c : ConnState) : ServerState × List Emit :=
  match c.currentRoom with
  | none => (st, [])
  | some rid =>
    match getRoom st rid with
    | none => (st, [])
    | some room =>
      let r := room.undo
      (setRoom st rid r.2,
       match r.1 with
       | some _ => [Emit.toRoomAll rid "undo"]
       | none => [])

/-- The `clear-canvas` handler: no-op when unbound or the room is gone;
otherwise clear the room's log and broadcast to the whole room. -/
def handleClearCanvas (st : ServerState) (c : ConnState) :
    ServerState × List Emit :=
  match c.currentRoom with
  | none => (st, [])
  | some rid =>
    match getRoom st rid with
    | none => (st, [])
    | some room =>
      (setRoom st rid room.clear, [Emit.toRoomAll rid "clear-canvas"])

/-- Whether `uid` is currently a member of room `rid`. -/
def isMember (st : ServerState) (rid uid : String) : Bool :=
  match getRoom st rid with
  | some room => (mapGet room.users uid).isSome
  | none => false

/-- One join request; the connection state carries the requesting socket. -/
structure JoinReq where
  conn : ConnState
  roomId : String
  username : String
  now : Nat

/-- Run a sequence of join requests, collecting the color assigned to each
joiner in order. -/
def runJoins (st : ServerState) : List JoinReq → List String
  | [] => []
  | r :: rest =>
    let res := handleJoin st r.conn r.roomId r.username r.now
    (match (res.2.1).userInfo with
     | some u => u.color
     | none => "") :: runJoins res.1 rest

lemma mapGet_set_self {α : Type} (m : List (String × α)) (k : String) (v : α) :
    mapGet (mapSet m k v) k = some v := by
  induction m with
  | nil => simp [mapSet, mapGet]
  | cons hd tl ih =>
    obtain ⟨a, b⟩ := hd
    by_cases h : a = k <;> simp [mapSet, mapGet, h, ih]

lemma mapGet_set_ne {α : Type} (m : List (String × α)) (k k' : String) (v : α)
    (h : k ≠ k') : mapGet (mapSet m k v) k' = mapGet m k' := by
  induction m with
  | nil => simp [mapSet, mapGet, h]
  | cons hd tl ih =>
    obtain ⟨a, b⟩ := hd
    by_cases hh : a = k
    · subst hh
      simp [mapSet, mapGet, h]
    · by_cases hk' : a = k' <;> simp [mapSet, mapGet, hh, hk', Ne.symm h, ih]

lemma mapGet_delete_self {α : Type} (m : List (String × α)) (k : String) :
    mapGet (mapDelete m k) k = none := by
  induction m with
  | nil => simp [mapDelete, mapGet]
  | cons hd tl ih =>
    obtain ⟨a, b⟩ := hd
    simp only [mapDelete] at ih
    by_cases h : a = k
    · subst h
      simpa [mapDelete, List.filter_cons, mapGet] using ih
    · simpa [mapDelete, List.filter_cons, bne_iff_ne, h, mapGet] using ih

lemma mapGet_delete_ne {α : Type} (m : List (String × α)) (k k' : String)
    (h : k ≠ k') : mapGet (mapDelete m k) k' = mapGet m k' := by
  induction m with
  | nil => simp [mapDelete, mapGet]
  | cons hd tl ih =>
    obtain ⟨a, b⟩ := hd
    simp only [mapDelete] at ih
    by_cases hh : a = k
    · subst hh
      have ha : a ≠ k' := h
      simpa [mapDelete, List.filter_cons, mapGet, ha] using ih
    · by_cases hk' : a = k'
      · simp [mapDelete, List.filter_cons, bne_iff_ne, hh, mapGet, hk',
              Ne.symm h]
      · simpa [mapDelete, List.filter_cons, bne_iff_ne, hh, mapGet, hk',
               Ne.symm h] using ih

lemma idBound_applyAction (s : DrawingState) (a : LogAction) (h : idBound s) :
    idBound (applyAction s a) := by
  cases a with
  | append p now =>
    intro op hop
    simp only [applyAction, DrawingState.addOperation] at hop ⊢
    rcases List.mem_append.1 hop with h1 | h1
    · exact Nat.lt_succ_of_lt (h op h1)
    · simp at h1
      subst h1
      exact Nat.lt_succ_self _
  | undoLast =>
    simp only [applyAction, DrawingState.undo]
    rcases hl : s.operations.getLast? with _ | opL
    · exact h
    · intro op hop
      exact h op ((List.dropLast_sublist s.operations).subset hop)
  | clearAll =>
    intro op hop
    simp [applyAction, DrawingState.clear] at hop

lemma idSorted_applyAction (s : DrawingState) (a : LogAction)
    (hs : idSorted s) (hb : idBound s) : idSorted (applyAction s a) := by
  cases a with
  | append p now =>
    simp only [applyAction, DrawingState.addOperation, idSorted]
    refine List.pairwise_append.2 ⟨hs, List.pairwise_singleton _ _, ?_⟩
    intro x hx y hy
    simp at hy
    subst hy
    exact hb x hx
  | undoLast =>
    simp only [applyAction, DrawingState.undo]
    rcases hl : s.operations.getLast? with _ | opL
    · exact hs
    · exact hs.sublist (List.dropLast_sublist s.operations)
  | clearAll =>
    simp [applyAction, DrawingState.clear, idSorted]

lemma goodLog_runActions (acts : List LogAction) :
    ∀ s : DrawingState, idSorted s → idBound s →
      idSorted (runActions s acts) ∧ idBound (runActions s acts) := by
  induction acts with
  | nil => exact fun s hs hb => ⟨hs, hb⟩
  | cons a rest ih =>
    intro s hs hb
    exact ih (applyAction s a) (idSorted_applyAction s a hs hb)
      (idBound_applyAction s a hb)

lemma goodLog_mk0 (rid : String) :
    idSorted (DrawingState.mk0 rid) ∧ idBound (DrawingState.mk0 rid) := by
  constructor
  · simp [idSorted, DrawingState.mk0]
  · intro op hop
    simp [DrawingState.mk0] at hop

lemma last_id_max (l : List Operation)
    (hs : l.Pairwise (fun a b => a.id < b.id)) (opL : Operation)
    (hL : l.getLast? = some opL) : ∀ op ∈ l, op.id ≤ opL.id := by
  intro op hop
  have hdec : l.dropLast ++ [opL] = l :=
    List.dropLast_append_getLast? opL (by rw [hL]; rfl)
  rw [← hdec] at hs hop
  rcases List.mem_append.1 hop with h1 | h1
  · exact Nat.le_of_lt ((List.pairwise_append.1 hs).2.2 op h1 opL (by simp))
  · simp at h1
    subst h1
    exact Nat.le_refl _

/-- C1 (counterexample): from a fresh room, the history append, append,
undo, append leaves a log of two operations whose ids are 0 and 2 — not a
gap-free run 0..k-1 — so the spec's gap-free clause fails. -/
theorem c1_cex :
    logIds (runActions (DrawingState.mk0 "default") gapHistory) = [0, 2] ∧
    ¬ gapFree (runActions (DrawingState.mk0 "default") gapHistory) := by
  constructor <;> decide

/-- C1 (amended): for every room and every sequence of append, undo and
clear calls, the operations in the log are totally ordered by id (strictly
ascending in log order) and every id is below the id counter; the ids need
not be gap-free, since undo pops an operation without decrementing the
counter, so an append after an undo skips the undone id. -/
theorem c1_thm (rid : String) (acts : List LogAction) :
    idSorted (runActions (DrawingState.mk0 rid) acts) ∧
    idBound (runActions (DrawingState.mk0 rid) acts) :=
  goodLog_runActions acts (DrawingState.mk0 rid) (goodLog_mk0 rid).1
    (goodLog_mk0 rid).2

/-- C2 (counterexample): after append, append, undo, append from a fresh
room, the log has length 2 but undo returns the operation with id 2, not
id = n - 1 = 1. -/
theorem c2_cex :
    (runActions (DrawingState.mk0 "default") gapHistory).operations.length = 2 ∧
    ((runActions (DrawingState.mk0 "default") gapHistory).undo).1.map
        Operation.id = some 2 ∧
    ((runActions (DrawingState.mk0 "default") gapHistory).undo).1.map
        Operation.id ≠ some
          ((runActions (DrawingState.mk0 "default")
              gapHistory).operations.length - 1) := by
  refine ⟨by decide, by decide, by decide⟩

/-- C2 (amended): on a state whose log is sorted by id, undo on an empty log
returns none and leaves the state untouched; on a nonempty log it removes
and returns the last operation, which carries the highest id in the log,
leaving length n-1 and the rest of the state (room id, id counter, users)
unchanged.  Its id equals n-1 only in histories without a prior undo, not in
general. -/
theorem c2_thm (s : DrawingState) (hs : idSorted s) :
    (s.operations = [] → s.undo = (none, s)) ∧
    (∀ opL, s.operations.getLast? = some opL →
      (s.undo).1 = some opL ∧
      (s.undo).2.operations = s.operations.dropLast ∧
      (s.undo).2.operations.length = s.operations.length - 1 ∧
      (∀ op ∈ s.operations, op.id ≤ opL.id) ∧
      (s.undo).2.currentOperationId = s.currentOperationId ∧
      (s.undo).2.users = s.users ∧
      (s.undo).2.roomId = s.roomId) := by
  constructor
  · intro hemp
    simp [DrawingState.undo, hemp]
  · intro opL hL
    have h1 : s.undo =
        (some opL, { s with operations := s.operations.dropLast }) := by
      simp [DrawingState.undo, hL]
    rw [h1]
    exact ⟨rfl, rfl, List.length_dropLast s.operations,
      last_id_max s.operations hs opL hL, rfl, rfl, rfl⟩

/-- A concrete sorted state with ids 0 and 5 (reachable only through undos,
shown here directly). -/
def sWit : DrawingState :=
  ⟨"r", [⟨p0, 0, 0⟩, ⟨p0, 5, 1⟩], 6, []⟩

/-- Witness for the amended C2 at a concrete sorted state: undo returns the
operation with id 5, the maximum id in the log. -/
theorem c2_witness :
    idSorted sWit ∧
    ((sWit.undo).1 = some ⟨p0, 5, 1⟩ ∧
     ∀ op ∈ sWit.operations, op.id ≤ (5 : Nat)) := by
  refine ⟨by decide, ?_, ?_⟩
  · exact ((c2_thm sWit (by decide)).2 ⟨p0, 5, 1⟩ rfl).1
  · exact ((c2_thm sWit (by decide)).2 ⟨p0, 5, 1⟩ rfl).2.2.2.1

/-- Run consecutive `addOperation` calls, collecting the returned records. -/
def appendRun (s : DrawingState) : List (OpPayload × Nat) →
    List Operation × DrawingState
  | [] => ([], s)
  | pr :: rest =>
    let r := s.addOperation pr.1 pr.2
    let t := appendRun r.2 rest
    (r.1 :: t.1, t.2)

lemma appendRun_spec (ps : List (OpPayload × Nat)) :
    ∀ s : DrawingState,
      (appendRun s ps).1.map Operation.id =
        List.range' s.currentOperationId ps.length ∧
      (appendRun s ps).2.operations = s.operations ++ (appendRun s ps).1 := by
  induction ps with
  | nil => intro s; simp [appendRun]
  | cons pr rest ih =>
    intro s
    have ihs := ih ((s.addOperation pr.1 pr.2).2)
    constructor
    · simp only [appendRun, List.map_cons, List.length_cons,
                 List.range'_succ _ _ 1]
      refine congrArg (List.cons s.currentOperationId) ?_
      simpa [DrawingState.addOperation] using ihs.1
    · simp only [appendRun]
      rw [ihs.2]
      simp [DrawingState.addOperation]

/-- C3: from a freshly created or freshly cleared room, n consecutive
appends with no intervening undo or clear return operations whose ids are
exactly 0, 1, ..., n-1 in call order, and the final log is exactly the list
of returned records in order. -/
theorem c3_thm (rid : String) (s : DrawingState) (ps : List (OpPayload × Nat)) :
    ((appendRun (DrawingState.mk0 rid) ps).1.map Operation.id =
      List.range ps.length ∧
     (appendRun (DrawingState.mk0 rid) ps).2.operations =
      (appendRun (DrawingState.mk0 rid) ps).1) ∧
    ((appendRun s.clear ps).1.map Operation.id = List.range ps.length ∧
     (appendRun s.clear ps).2.operations = (appendRun s.clear ps).1) := by
  have h1 := appendRun_spec ps (DrawingState.mk0 rid)
  have h2 := appendRun_spec ps s.clear
  refine ⟨⟨?_, ?_⟩, ?_, ?_⟩
  · rw [h1.1, List.range_eq_range']
    rfl
  · simpa [DrawingState.mk0] using h1.2
  · rw [h2.1, List.range_eq_range']
    rfl
  · simpa [DrawingState.clear] using h2.2

/-- C4: regardless of prior history, clear empties the log and resets the id
counter to 0, so the next append returns an operation with id 0 (and the log
after it is that single operation). -/
theorem c4_thm (s : DrawingState) (p : OpPayload) (now : Nat) :
    (s.clear).operations = [] ∧
    (s.clear).currentOperationId = 0 ∧
    ((s.clear).addOperation p now).1.id = 0 ∧
    ((s.clear).addOperation p now).2.operations = [⟨p, 0, now⟩] :=
  ⟨rfl, rfl, rfl, rfl⟩

/-- The ids handed out by the appends of an action sequence, in call order. -/
def assignedIds (s : DrawingState) : List LogAction → List Nat
  | [] => []
  | a :: rest =>
    match a with
    | .append _ _ => s.currentOperationId :: assignedIds (applyAction s a) rest
    | _ => assignedIds (applyAction s a) rest

lemma counter_applyAction (s : DrawingState) (a : LogAction)
    (h : a ≠ LogAction.clearAll) :
    s.currentOperationId ≤ (applyAction s a).currentOperationId := by
  cases a with
  | append p now => exact Nat.le_succ _
  | undoLast =>
    simp only [applyAction, DrawingState.undo]
    rcases hl : s.operations.getLast? with _ | opL
    · exact Nat.le_refl _
    · exact Nat.le_refl _
  | clearAll => exact absurd rfl h

lemma counter_mono (acts : List LogAction) (h : LogAction.clearAll ∉ acts) :
    ∀ s : DrawingState,
      s.currentOperationId ≤ (runActions s acts).currentOperationId := by
  induction acts with
  | nil => intro s; exact Nat.le_refl _
  | cons a rest ih =>
    intro s
    have ha : a ≠ LogAction.clearAll := fun he => h (he ▸ List.mem_cons_self a rest)
    have hr : LogAction.clearAll ∉ rest := fun he => h (List.mem_cons_of_mem a he)
    exact Nat.le_trans (counter_applyAction s a ha) (ih hr (applyAction s a))

lemma assigned_lt_final (acts : List LogAction)
    (h : LogAction.clearAll ∉ acts) :
    ∀ s : DrawingState, ∀ i ∈ assignedIds s acts,
      i < (runActions s acts).currentOperationId := by
  induction acts with
  | nil => intro s i hi; simp [assignedIds] at hi
  | cons a rest ih =>
    intro s i hi
    have ha : a ≠ LogAction.clearAll := fun he => h (he ▸ List.mem_cons_self a rest)
    have hr : LogAction.clearAll ∉ rest := fun he => h (List.mem_cons_of_mem a he)
    cases a with
    | append p now =>
      simp only [assignedIds] at hi
      rcases List.mem_cons.1 hi with h1 | h1
      · subst h1
        have hrun : runActions s (LogAction.append p now :: rest) =
            runActions (applyAction s (LogAction.append p now)) rest := rfl
        rw [hrun]
        exact Nat.lt_of_lt_of_le (Nat.lt_succ_self _)
          (counter_mono rest hr (applyAction s (LogAction.append p now)))
      · exact ih hr _ i h1
    | undoLast =>
      simp only [assignedIds] at hi
      exact ih hr _ i hi
    | clearAll => exact absurd rfl ha

/-- C9: the id counter strictly bounds every id in the log, and this is
preserved by any sequence of append, undo and clear calls; moreover in a
history without a clear the counter never decreases, every id assigned
during the history stays strictly below the final counter, and a subsequent
append receives exactly the final counter as id — hence an id strictly
greater than every id assigned before, so undone ids are never reassigned
until a clear. -/
theorem c9_thm (s : DrawingState) (acts : List LogAction) (h : idBound s) :
    idBound (runActions s acts) ∧
    (LogAction.clearAll ∉ acts →
      s.currentOperationId ≤ (runActions s acts).currentOperationId ∧
      (∀ i ∈ assignedIds s acts, i < (runActions s acts).currentOperationId) ∧
      ∀ p now, ((runActions s acts).addOperation p now).1.id =
        (runActions s acts).currentOperationId) := by
  constructor
  · induction acts generalizing s with
    | nil => exact h
    | cons a rest ih => exact ih (applyAction s a) (idBound_applyAction s a h)
  · intro hnc
    exact ⟨counter_mono acts hnc s, assigned_lt_final acts hnc s,
      fun p now => rfl⟩

/-- Witness for C9 on the concrete history append, append, undo, append
from a fresh room: the bound holds afterwards, and every assigned id (0, 1
and 2 — including the undone id 1) is below the final counter 3, so the
next append would receive the fresh id 3. -/
theorem c9_witness :
    idBound (DrawingState.mk0 "r") ∧
    idBound (runActions (DrawingState.mk0 "r") gapHistory) ∧
    (∀ i ∈ assignedIds (DrawingState.mk0 "r") gapHistory,
      i < (runActions (DrawingState.mk0 "r") gapHistory).currentOperationId) ∧
    ((runActions (DrawingState.mk0 "r") gapHistory).addOperation p0 9).1.id =
      (runActions (DrawingState.mk0 "r") gapHistory).currentOperationId :=
  ⟨by decide,
   (c9_thm (DrawingState.mk0 "r") gapHistory (by decide)).1,
   ((c9_thm (DrawingState.mk0 "r") gapHistory (by decide)).2 (by decide)).2.1,
   ((c9_thm (DrawingState.mk0 "r") gapHistory (by decide)).2 (by decide)).2.2
     p0 9⟩

/-- C10: clear touches only the log and the id counter: the users map and
the room id are unchanged. -/
theorem c10_thm (s : DrawingState) :
    (s.clear).users = s.users ∧ (s.clear).roomId = s.roomId :=
  ⟨rfl, rfl⟩

lemma leave_colorIndex (st : ServerState) (c : ConnState) :
    (leavePrevRoom st c).1.colorIndex = st.colorIndex := by
  unfold leavePrevRoom
  rcases hc : c.currentRoom with _ | prev
  · simp only [hc]
  · simp only [hc]
    rcases hg : getRoom st prev with _ | oldRoom <;> simp [hg, setRoom]

lemma leave_getRoom_other (st : ServerState) (c : ConnState) (r : String)
    (h : c.currentRoom ≠ some r) :
    getRoom (leavePrevRoom st c).1 r = getRoom st r := by
  unfold leavePrevRoom
  rcases hc : c.currentRoom with _ | prev
  · simp only [hc]
  · have hpr : prev ≠ r := fun he => h (by rw [hc, he])
    simp only [hc]
    rcases hg : getRoom st prev with _ | oldRoom
    · simp only [hg]
    · simp only [hg, getRoom, setRoom]
      exact mapGet_set_ne _ _ _ _ hpr

lemma leave_removes (st : ServerState) (c : ConnState) (prev : String)
    (h : c.currentRoom = some prev) :
    isMember (leavePrevRoom st c).1 prev c.socketId = false := by
  unfold leavePrevRoom
  rw [h]
  rcases hg : getRoom st prev with _ | oldRoom
  · simp [isMember, hg]
  · have hg' : mapGet st.rooms prev = some oldRoom := hg
    simp only [isMember, getRoom, setRoom, DrawingState.removeUser, hg']
    rw [mapGet_set_self]
    simp [mapGet_delete_self]

lemma getOrCreate_colorIndex (st : ServerState) (rid : String) :
    (getOrCreateRoom st rid).1.colorIndex = st.colorIndex := by
  unfold getOrCreateRoom
  rcases hg : mapGet st.rooms rid with _ | room <;> simp only [hg]

lemma getOrCreate_getRoom_other (st : ServerState) (rid r : String)
    (h : r ≠ rid) :
    getRoom (getOrCreateRoom st rid).1 r = getRoom st r := by
  unfold getOrCreateRoom
  rcases hg : mapGet st.rooms rid with _ | room
  · simp only [hg, getRoom]
    exact mapGet_set_ne _ _ _ _ (Ne.symm h)
  · simp only [hg]

lemma getRoom_handleJoin_ne (st : ServerState) (c : ConnState)
    (roomId username : String) (now : Nat) (r : String) (h : r ≠ roomId) :
    getRoom (handleJoin st c roomId username now).1 r =
      getRoom (leavePrevRoom st c).1 r := by
  unfold handleJoin
  simp only [getRoom, setRoom]
  rw [mapGet_set_ne _ _ _ _ (Ne.symm h)]
  exact getOrCreate_getRoom_other (leavePrevRoom st c).1 roomId r h

lemma handleJoin_member_new (st : ServerState) (c : ConnState)
    (roomId username : String) (now : Nat) :
    isMember (handleJoin st c roomId username now).1 roomId c.socketId = true := by
  unfold handleJoin
  simp only [isMember, getRoom, setRoom, DrawingState.addUser]
  rw [mapGet_set_self]
  simp [mapGet_set_self]

/-- C5: a join for room B while bound to room A first removes the connection
from A's membership (already after the leave phase, before the add), and
afterwards the connection is a member of room B but not of room A; any other
room's membership for this connection is untouched. -/
theorem c5_thm (st : ServerState) (c : ConnState) (A B username : String)
    (now : Nat) (hA : c.currentRoom = some A) (hAB : A ≠ B) :
    isMember (leavePrevRoom st c).1 A c.socketId = false ∧
    isMember (handleJoin st c B username now).1 B c.socketId = true ∧
    isMember (handleJoin st c B username now).1 A c.socketId = false ∧
    ∀ r, r ≠ A → r ≠ B →
      isMember (handleJoin st c B username now).1 r c.socketId =
        isMember st r c.socketId := by
  refine ⟨leave_removes st c A hA, handleJoin_member_new st c B username now,
    ?_, ?_⟩
  · have h1 := getRoom_handleJoin_ne st c B username now A hAB
    have h2 := leave_removes st c A hA
    simp only [isMember] at h2 ⊢
    rw [h1]
    exact h2
  · intro r hrA hrB
    have h1 := getRoom_handleJoin_ne st c B username now r hrB
    have h2 : getRoom (leavePrevRoom st c).1 r = getRoom st r := by
      refine leave_getRoom_other st c r ?_
      rw [hA]
      intro he
      injection he with hv
      exact hrA hv.symm
    simp only [isMember]
    rw [h1, h2]

/-- A concrete room A populated by connection s1. -/
def roomA : DrawingState :=
  ⟨"A", [], 0, [("s1", ⟨⟨"s1", "alice", "#FF6B6B"⟩, 0⟩)]⟩

/-- A concrete server state holding only room A. -/
def stW : ServerState :=
  ⟨[("A", roomA)], 3⟩

/-- The connection s1, bound to room A. -/
def cW : ConnState :=
  ⟨"s1", some "A", some ⟨"s1", "alice", "#FF6B6B"⟩⟩

/-- Witness for C5: connection s1 bound to room A joins room B; afterwards
it is a member of B and no longer of A. -/
theorem c5_witness :
    cW.currentRoom = some "A" ∧ "A" ≠ "B" ∧
    isMember (handleJoin stW cW "B" "alice" 7).1 "B" cW.socketId = true ∧
    isMember (handleJoin stW cW "B" "alice" 7).1 "A" cW.socketId = false :=
  ⟨rfl, by decide,
   (c5_thm stW cW "A" "B" "alice" 7 rfl (by decide)).2.1,
   (c5_thm stW cW "A" "B" "alice" 7 rfl (by decide)).2.2.1⟩

/-- C6: while unbound (no join yet), the draw, cursor-move, undo and
clear-canvas handlers are silent no-ops: the server state is unchanged and
no event is emitted. -/
theorem c6_thm (st : ServerState) (c : ConnState) (data : String) (now : Nat)
    (h : c.currentRoom = none) :
    handleDraw st c data now = (st, []) ∧
    handleCursorMove st c = (st, []) ∧
    handleUndo st c = (st, []) ∧
    handleClearCanvas st c = (st, []) := by
  unfold handleDraw handleCursorMove handleUndo handleClearCanvas
  rw [h]
  exact ⟨rfl, rfl, rfl, rfl⟩

/-- An unbound connection. -/
def cU : ConnState :=
  ⟨"s9", none, none⟩

/-- Witness for C6 at a concrete unbound connection and server state. -/
theorem c6_witness :
    cU.currentRoom = none ∧
    handleDraw stW cU "d" 1 = (stW, []) ∧
    handleUndo stW cU = (stW, []) :=
  ⟨rfl, (c6_thm stW cU "d" 1 rfl).1, (c6_thm stW cU "d" 1 rfl).2.2.1⟩

/-- C7: removeRoom deletes the room entry exactly when the room exists and
its membership is empty; when the room has members, or does not exist, the
store is unchanged and false is returned. -/
theorem c7_thm (st : ServerState) (rid : String) :
    (∀ room, getRoom st rid = some room → room.users.length = 0 →
      removeRoom st rid = ({ st with rooms := mapDelete st.rooms rid }, true)) ∧
    (∀ room, getRoom st rid = some room → room.users.length ≠ 0 →
      removeRoom st rid = (st, false)) ∧
    (getRoom st rid = none → removeRoom st rid = (st, false)) := by
  refine ⟨?_, ?_, ?_⟩
  · intro room hg hz
    unfold removeRoom
    have hg' : mapGet st.rooms rid = some room := hg
    simp only [hg', hz]
    rfl
  · intro room hg hz
    unfold removeRoom
    have hg' : mapGet st.rooms rid = some room := hg
    simp only [hg', hz]
    rfl
  · intro hg
    unfold removeRoom
    have hg' : mapGet st.rooms rid = none := hg
    simp only [hg']

/-- An empty room E. -/
def stE : ServerState :=
  ⟨[("E", DrawingState.mk0 "E")], 0⟩

/-- Witness for C7: reclaiming the empty room E deletes it; reclaiming
room A, which has a member, is a no-op. -/
theorem c7_witness :
    (DrawingState.mk0 "E").users.length = 0 ∧
    roomA.users.length ≠ 0 ∧
    removeRoom stE "E" = ({ stE with rooms := mapDelete stE.rooms "E" }, true) ∧
    removeRoom stW "A" = (stW, false) :=
  ⟨rfl, by decide,
   (c7_thm stE "E").1 (DrawingState.mk0 "E") rfl rfl,
   (c7_thm stW "A").2.1 roomA rfl (by decide)⟩

lemma handleJoin_colorIndex (st : ServerState) (c : ConnState)
    (rid un : String) (now : Nat) :
    (handleJoin st c rid un now).1.colorIndex = st.colorIndex + 1 := by
  simp only [handleJoin, setRoom]
  rw [getOrCreate_colorIndex, leave_colorIndex]

lemma handleJoin_conn (st : ServerState) (c : ConnState) (rid un : String)
    (now : Nat) :
    (handleJoin st c rid un now).2.1.userInfo =
      some ⟨c.socketId, un,
        USER_COLORS.getD (st.colorIndex % USER_COLORS.length) ""⟩ := by
  simp only [handleJoin]
  rw [getOrCreate_colorIndex, leave_colorIndex]

lemma runJoins_length (reqs : List JoinReq) :
    ∀ st : ServerState, (runJoins st reqs).length = reqs.length := by
  induction reqs with
  | nil => intro st; rfl
  | cons r rest ih =>
    intro st
    simp only [runJoins, List.length_cons, ih]

lemma runJoins_getD (reqs : List JoinReq) :
    ∀ (st : ServerState) (k : Nat), k < reqs.length →
      (runJoins st reqs).getD k "" =
        USER_COLORS.getD ((st.colorIndex + k) % USER_COLORS.length) "" := by
  induction reqs with
  | nil =>
    intro st k h
    simp at h
  | cons r rest ih =>
    intro st k hk
    simp only [runJoins]
    cases k with
    | zero =>
      rw [handleJoin_conn]
      simp
    | succ k =>
      simp only [List.getD_cons_succ]
      rw [ih _ k (by simpa using Nat.lt_of_succ_lt_succ (by simpa using hk))]
      rw [handleJoin_colorIndex]
      have harith : st.colorIndex + 1 + k = st.colorIndex + (k + 1) := by omega
      rw [harith]

/-- C8: colors are drawn round-robin from the fixed 12-entry palette by a
single global counter: starting from a fresh counter, the k-th join across
all rooms and connections receives palette entry k mod 12, independent of
the rooms joined. -/
theorem c8_thm (reqs : List JoinReq) (st : ServerState)
    (h0 : st.colorIndex = 0) (k : Nat) (hk : k < reqs.length) :
    USER_COLORS.length = 12 ∧
    (runJoins st reqs).length = reqs.length ∧
    (runJoins st reqs).getD k "" = USER_COLORS.getD (k % 12) "" := by
  have hlen : USER_COLORS.length = 12 := rfl
  refine ⟨hlen, runJoins_length reqs st, ?_⟩
  rw [runJoins_getD reqs st k hk, h0, Nat.zero_add, hlen]

/-- Two concrete join requests for different rooms from different sockets. -/
def reqsW : List JoinReq :=
  [⟨⟨"s1", none, none⟩, "room1", "u1", 0⟩,
   ⟨⟨"s2", none, none⟩, "room2", "u2", 1⟩]

/-- Witness for C8: from a fresh server, the second join (k = 1) receives
palette entry 1, although it targets a different room. -/
theorem c8_witness :
    (ServerState.mk [] 0).colorIndex = 0 ∧ (1 : Nat) < reqsW.length ∧
    (runJoins (ServerState.mk [] 0) reqsW).getD 1 "" =
      USER_COLORS.getD (1 % 12) "" :=
  ⟨rfl, by decide, (c8_thm reqsW (ServerState.mk [] 0) rfl 1 (by decide)).2.2⟩
